import Mathlib

/-!
Verification of the custom-field value codec and the custom-field item
submission guard of a Trello API client (`custom-fields.go`).

The Go code is shallowly embedded: `CustomFieldValue.MarshalJSON` becomes
`marshalJSON`, `CustomFieldValue.UnmarshalJSON` becomes `unmarshalJSON`
(explicit state passing for the receiver's `val` field),
`Client.SetCustomFieldByItem` becomes `setCustomFieldByItem` returning either
the guard error or a description of the PUT request it would issue.
Go `float64` values are modelled as exact rationals (`ℚ`); `fmt.Sprintf`
and the `strconv` parsers are modelled over that abstraction, with `%f`
rendering six fractional digits exactly as Go's correctly-rounded fixed
formatting does.  Go `time.Time` is modelled as its wall-clock fields plus
the zone offset in seconds, matching what `Format`/`Parse` with the layout
`"2006-01-02T15:04:05Z"` (a literal `Z`, not a zone directive) can observe.
-/

/-- Numeric value of a decimal digit character (`c - '0'` in Go). -/
def charToDigit (c : Char) : Nat := c.toNat - 48

/-- Value of a most-significant-first digit list, starting from `acc`
(the usual `acc * 10 + digit` fold used by Go's `strconv` parsers). -/
def valDigits (acc : Nat) (l : List Char) : Nat :=
  l.foldl (fun a c => a * 10 + charToDigit c) acc

/-- Structural helper for `natToDigits`: the fuel bounds the number of
digits, so the recursion is structural and kernel-reducible. -/
def natToDigitsFuel : Nat → Nat → List Char
  | 0, _ => []
  | fuel + 1, n =>
    if n < 10 then [Nat.digitChar n]
    else natToDigitsFuel fuel (n / 10) ++ [Nat.digitChar (n % 10)]

/-- Decimal digit characters of `n`, most significant first, no leading
zeros (the digit sequence produced by Go's `strconv.FormatInt`). -/
def natToDigits (n : Nat) : List Char := natToDigitsFuel (n + 1) n

/-- Left-pad a digit list with `'0'` to width `k` (Go's zero-padded
fixed-width number formatting). -/
def padLeft (k : Nat) (l : List Char) : List Char :=
  List.replicate (k - l.length) '0' ++ l

/-- Strip one leading sign character, returning whether it was `'-'`
(the sign handling of Go's `strconv` parsers). -/
def stripSign : List Char → Bool × List Char
  | [] => (false, [])
  | c :: r => if c = '-' then (true, r) else if c = '+' then (false, r) else (false, c :: r)

/-- Parse a non-empty all-digit list to its value; `none` otherwise. -/
def digitsVal? (l : List Char) : Option Nat :=
  if l = [] then none
  else if l.all Char.isDigit then some (valDigits 0 l) else none

/-- Models Go `strconv.Atoi` (= `ParseInt(s, 10, 0)` with 64-bit `int`):
optional single sign, one or more decimal digits, 64-bit range check.
Returns `none` where Go returns a non-nil error. -/
def goAtoiList (l : List Char) : Option Int :=
  match stripSign l with
  | (neg, l1) =>
    match digitsVal? l1 with
    | none => none
    | some n =>
      if neg then (if n ≤ 2 ^ 63 then some (-(n : Int)) else none)
      else (if n < 2 ^ 63 then some (n : Int) else none)

/-- Models Go `strconv.Atoi` on strings. -/
def goAtoi (s : String) : Option Int := goAtoiList s.toList

/-- Models Go `strconv.ParseInt(s, 10, 64)`; on the 64-bit platforms this
client targets it coincides with `Atoi`. -/
def goParseInt64 (s : String) : Option Int := goAtoiList s.toList

/-- Ten to an integer power, as a rational. -/
def pow10Z (e : Int) : ℚ :=
  if 0 ≤ e then ((10 : ℚ) ^ e.toNat) else 1 / (10 : ℚ) ^ (-e).toNat

/-- Parse the tail after the mantissa of a float literal: either the end of
the input or a decimal exponent part `e`/`E`, optional sign, digits. -/
def parseExpTail : List Char → Option Int
  | [] => some 0
  | c :: r =>
    if c = 'e' ∨ c = 'E' then
      match stripSign r with
      | (neg, r1) =>
        match digitsVal? r1 with
        | none => none
        | some n => some (if neg then -(n : Int) else (n : Int))
    else none

/-- Assemble a parsed float from sign, integer digits, fraction digits and
exponent; fails when no digits are present at all (as Go does). -/
def mkFloat (neg : Bool) (ip fp : List Char) (tail : List Char) : Option ℚ :=
  if ip = [] ∧ fp = [] then none
  else
    match parseExpTail tail with
    | none => none
    | some e =>
      let mag : ℚ :=
        ((valDigits 0 ip : ℚ) * (10 : ℚ) ^ fp.length + (valDigits 0 fp : ℚ))
          / (10 : ℚ) ^ fp.length * pow10Z e
      some (if neg then -mag else mag)

/-- The part of a float literal after the optional sign: integer digits,
at most one dot, fraction digits, optional exponent. -/
def goParseFloatCore (neg : Bool) (l1 : List Char) : Option ℚ :=
  let ip := l1.takeWhile Char.isDigit
  match l1.dropWhile Char.isDigit with
  | '.' :: r2 => mkFloat neg ip (r2.takeWhile Char.isDigit) (r2.dropWhile Char.isDigit)
  | r1 => mkFloat neg ip [] r1

/-- Models Go `strconv.ParseFloat` on decimal literals (optional sign,
digits with at most one dot, optional exponent).  Under the exact-rational
abstraction of `float64` the bit size does not matter, and the special
forms `Inf`/`NaN`/hex floats are outside the model. -/
def goParseFloatList (l : List Char) : Option ℚ :=
  match stripSign l with
  | (neg, l1) => goParseFloatCore neg l1

/-- Models Go `strconv.ParseFloat(s, bitSize)` on strings. -/
def goParseFloat (s : String) (bitSize : Nat) : Option ℚ :=
  goParseFloatList s.toList

/-- Floor of a rational as an integer (self-contained, computable). -/
def ratFloor (q : ℚ) : Int := Int.fdiv q.num (q.den : Int)

/-- Round a rational to the nearest integer, ties to even — the rounding
Go's correctly-rounded `%f` formatting applies to the exact value. -/
def roundHalfEven (x : ℚ) : Int :=
  let n := ratFloor x
  let r := x - (n : ℚ)
  if r < 1 / 2 then n
  else if 1 / 2 < r then n + 1
  else if Int.emod n 2 = 0 then n else n + 1

/-- Models Go `fmt.Sprintf("%d", v)` for integers. -/
def goFormatInt (n : Int) : String :=
  String.mk ((if n < 0 then ['-'] else []) ++ natToDigits n.natAbs)

/-- Models Go `fmt.Sprintf("%f", v)` for `float64`: the value rendered in
fixed-point notation with exactly six fractional digits, correctly
rounded. -/
def goFormatFloat (q : ℚ) : String :=
  String.mk
    ((if q < 0 then ['-'] else []) ++
      (let m := (roundHalfEven (|q| * 1000000)).toNat
       natToDigits (m / 1000000) ++ '.' :: padLeft 6 (natToDigits (m % 1000000))))

/-- Models Go `time.Time` as observed by this codec: the wall-clock reading
(year, month, day, hour, minute, second, nanosecond) together with the zone
offset of the time's location, in seconds east of UTC. -/
structure GoTime where
  year : Int
  month : Nat
  day : Nat
  hour : Nat
  minute : Nat
  second : Nat
  nano : Nat
  offset : Int
deriving DecidableEq

/-- The zero `time.Time`: January 1, year 1, 00:00:00 UTC. -/
def zeroGoTime : GoTime := ⟨1, 1, 1, 0, 0, 0, 0, 0⟩

/-- Leap-year test of the proleptic Gregorian calendar (Go `isLeap`). -/
def isLeap (y : Int) : Bool :=
  Int.emod y 4 = 0 && (Int.emod y 100 != 0 || Int.emod y 400 = 0)

/-- Days in a month (Go `daysIn`); months outside 1..12 yield 0 and are
rejected by the month range check anyway. -/
def daysInMonth (y : Int) (m : Nat) : Nat :=
  match m with
  | 1 => 31
  | 2 => if isLeap y then 29 else 28
  | 3 => 31
  | 4 => 30
  | 5 => 31
  | 6 => 30
  | 7 => 31
  | 8 => 31
  | 9 => 30
  | 10 => 31
  | 11 => 30
  | 12 => 31
  | _ => 0

/-- Zero-padded width-4 year field, with a leading minus sign for negative
years, as Go's `Format` emits for the layout year `2006`. -/
def pad4Year (y : Int) : List Char :=
  (if y < 0 then ['-'] else []) ++ padLeft 4 (natToDigits y.natAbs)

/-- Zero-padded width-2 numeric field (Go layout `01`, `02`, ...). -/
def pad2 (n : Nat) : List Char := padLeft 2 (natToDigits n)

/-- Models Go `t.Format("2006-01-02T15:04:05Z")`.  The trailing `Z` in this
layout is a literal character, not a zone directive, so the string shows the
time's own wall clock (its location's reading), whatever the offset is, and
the nanoseconds are dropped (second precision). -/
def goTimeFormat (t : GoTime) : String :=
  String.mk
    (pad4Year t.year ++ ('-' :: (pad2 t.month ++ ('-' :: (pad2 t.day ++
      ('T' :: (pad2 t.hour ++ (':' :: (pad2 t.minute ++
        (':' :: (pad2 t.second ++ ['Z'])))))))))))

/-- Read exactly `k` decimal digits, accumulating their value. -/
def takeDigitsAux : Nat → Nat → List Char → Option (Nat × List Char)
  | acc, 0, l => some (acc, l)
  | acc, k + 1, c :: r =>
    if c.isDigit then takeDigitsAux (acc * 10 + charToDigit c) k r else none
  | _, _ + 1, [] => none

/-- Read exactly `k` decimal digits from the front of `l`. -/
def takeDigits (k : Nat) (l : List Char) : Option (Nat × List Char) :=
  takeDigitsAux 0 k l

/-- Consume one expected literal character. -/
def expect (c : Char) : List Char → Option (List Char)
  | x :: r => if x = c then some r else none
  | [] => none

/-- Models Go `time.Parse("2006-01-02T15:04:05Z", s)`: four year digits,
two-digit month, day, hour, minute, second, the literal separators, the
literal `Z`, nothing more; ranges validated as Go's `Parse` does.  Since
the layout carries no zone information the result is a UTC time (offset 0)
with zero nanoseconds. -/
def goTimeParseList (l : List Char) : Option GoTime :=
  (takeDigits 4 l).bind fun (y, r) =>
  (expect '-' r).bind fun r =>
  (takeDigits 2 r).bind fun (mo, r) =>
  (expect '-' r).bind fun r =>
  (takeDigits 2 r).bind fun (d, r) =>
  (expect 'T' r).bind fun r =>
  (takeDigits 2 r).bind fun (h, r) =>
  (expect ':' r).bind fun r =>
  (takeDigits 2 r).bind fun (mi, r) =>
  (expect ':' r).bind fun r =>
  (takeDigits 2 r).bind fun (se, r) =>
  (expect 'Z' r).bind fun r =>
  if r = [] ∧ 1 ≤ mo ∧ mo ≤ 12 ∧ 1 ≤ d ∧ d ≤ daysInMonth (y : Int) mo ∧
      h ≤ 23 ∧ mi ≤ 59 ∧ se ≤ 59 then
    some ⟨(y : Int), mo, d, h, mi, se, 0, 0⟩
  else none

/-- The wall-clock fields a Go time must satisfy for `Format` to emit a
string `Parse` accepts back: in-range fields and a four-digit year. -/
def validTime (t : GoTime) : Prop :=
  1 ≤ t.year ∧ t.year ≤ 9999 ∧ 1 ≤ t.month ∧ t.month ≤ 12 ∧
    1 ≤ t.day ∧ t.day ≤ daysInMonth t.year t.month ∧
    t.hour ≤ 23 ∧ t.minute ≤ 59 ∧ t.second ≤ 59

instance (t : GoTime) : Decidable (validTime t) := by
  unfold validTime; infer_instance

/-- Modelled from the spec: `days_from_civil` — the number of days from the
epoch 1970-01-01 to the civil date `y-m-d` (needed only to state what
"rendered in UTC" means; the code under test never converts zones). -/
def daysFromCivil (y m d : Int) : Int :=
  let y' := if m ≤ 2 then y - 1 else y
  let era := Int.ediv (if 0 ≤ y' then y' else y' - 399) 400
  let yoe := y' - era * 400
  let mp := Int.emod (m + 9) 12
  let doy := Int.ediv (153 * mp + 2) 5 + d - 1
  let doe := yoe * 365 + Int.ediv yoe 4 - Int.ediv yoe 100 + doy
  era * 146097 + doe - 719468

/-- Modelled from the spec: `civil_from_days` — the civil date of a day
number relative to the epoch 1970-01-01. -/
def civilFromDays (z0 : Int) : Int × Int × Int :=
  let z := z0 + 719468
  let era := Int.ediv (if 0 ≤ z then z else z - 146096) 146097
  let doe := z - era * 146097
  let yoe := Int.ediv (doe - Int.ediv doe 1460 + Int.ediv doe 36524 - Int.ediv doe 146096) 365
  let y := yoe + era * 400
  let doy := doe - (365 * yoe + Int.ediv yoe 4 - Int.ediv yoe 100)
  let mp := Int.ediv (5 * doy + 2) 153
  let d := doy - Int.ediv (153 * mp + 2) 5 + 1
  let m := mp + (if mp < 10 then 3 else -9)
  (if m ≤ 2 then y + 1 else y, m, d)

/-- The absolute instant a `GoTime` denotes, in seconds since the epoch:
its wall clock read as a civil date-time, minus its zone offset. -/
def instantOf (t : GoTime) : Int :=
  daysFromCivil t.year (t.month : Int) (t.day : Int) * 86400 +
    (t.hour : Int) * 3600 + (t.minute : Int) * 60 + (t.second : Int) - t.offset

/-- The same instant as `t`, re-expressed in UTC (offset 0), at second
precision. -/
def toUTCTime (t : GoTime) : GoTime :=
  let secs := instantOf t
  let days := Int.ediv secs 86400
  let sod := (Int.emod secs 86400).toNat
  match civilFromDays days with
  | (y, m, d) => ⟨y, m.toNat, d.toNat, sod / 3600, sod % 3600 / 60, sod % 60, 0, 0⟩

/-- Modelled from the spec: "the timestamp rendered in UTC at second
precision in the exact fixed format `YYYY-MM-DDTHH:MM:SSZ`" — the fixed
format applied to the instant's UTC wall clock. -/
def specUTCRender (t : GoTime) : String := goTimeFormat (toUTCTime t)

/-- The wire struct `cfval` of `custom-fields.go`: four optional
string-typed JSON fields, absent fields being the empty string. -/
structure Cfval where
  text : String := ""
  number : String := ""
  date : String := ""
  checked : String := ""
deriving DecidableEq

/-- The JSON wire forms this codec produces and consumes: either a bare
JSON string (the empty-string special case) or an object carrying the four
`cfval` fields. -/
inductive Wire where
  | str (s : String)
  | obj (c : Cfval)
deriving DecidableEq

/-- The dynamic values a `CustomFieldValue` can hold (Go `interface{}`):
`nil`, the primitive kinds the type switch of `MarshalJSON` handles, an
already-wire-shaped `cfval`, a `driver.Valuer` (resolving to another value
or failing), or a value of any other type. -/
inductive GoVal where
  | nil
  | str (s : String)
  | int (n : Int)
  | int64 (n : Int)
  | float (q : ℚ)
  | bool (b : Bool)
  | time (t : GoTime)
  | cf (c : Cfval)
  | valuer (inner : GoVal)
  | valuerErr (msg : String)
  | other (desc : String)
deriving DecidableEq

/-- The errors the embedded code can produce. -/
inductive CFErr where
  | jsonType
  | timeParse (s : String)
  | numberConversion (s : String)
  | unsupportedType
  | unsupportedModelType (s : String)
  | valuerFailed (msg : String)
deriving DecidableEq

/-- Models `CustomFieldValue.MarshalJSON`: the type switch of
`custom-fields.go` lines 79–113.  A `driver.Valuer` is resolved and the
switch re-entered (`goto switchVal`); the empty string marshals to the bare
JSON string; every unhandled type is an "unsupported type" error with no
wire output. -/
def marshalJSON : GoVal → Except CFErr Wire
  | .nil => .error .unsupportedType
  | .str s => if s = "" then .ok (.str "") else .ok (.obj { text := s })
  | .int n => .ok (.obj { number := goFormatInt n })
  | .int64 n => .ok (.obj { number := goFormatInt n })
  | .float q => .ok (.obj { number := goFormatFloat q })
  | .bool b => .ok (.obj { checked := if b then "true" else "false" })
  | .time t => .ok (.obj { date := goTimeFormat t })
  | .cf c => .ok (.obj c)
  | .valuer inner => marshalJSON inner
  | .valuerErr msg => .error (.valuerFailed msg)
  | .other _ => .error .unsupportedType

/-- Models `time.Parse(timeFmt, s)` as used by `UnmarshalJSON`, packaging
the parse failure as an error naming the input. -/
def goTimeParse (s : String) : Except CFErr GoTime :=
  match goTimeParseList s.toList with
  | some t => .ok t
  | none => .error (.timeParse s)

/-- The number-field parse sequence of `UnmarshalJSON` lines 134–148:
`strconv.Atoi`, then `ParseFloat(·, 64)`, then `ParseFloat(·, 32)`, then
`ParseInt(·, 10, 64)`; the first success wins, and if all four fail the
result is the "cannot convert ... to number" error. -/
def numberChain (s : String) : Except CFErr GoVal :=
  match goAtoi s with
  | some n => .ok (.int n)
  | none =>
    match goParseFloat s 64 with
    | some q => .ok (.float q)
    | none =>
      match goParseFloat s 32 with
      | some q => .ok (.float q)
      | none =>
        match goParseInt64 s with
        | some n => .ok (.int64 n)
        | none => .error (.numberConversion s)

/-- The checked/number tail of `UnmarshalJSON` (lines 131–148), applied to
the value holder state `v` reached after the text and date fields.  When
the whole number chain fails, the holder has last been assigned the zero
result of the failed `ParseInt` (an `int64 0`) before the error returns. -/
def unmarshalTail (v : GoVal) (c : Cfval) : GoVal × Option CFErr :=
  let v2 := if c.checked = "" then v else GoVal.bool (c.checked == "true")
  if c.number = "" then (v2, none)
  else
    match numberChain c.number with
    | .ok w => (w, none)
    | .error e => (GoVal.int64 0, some e)

/-- The object branch of `UnmarshalJSON` (lines 122–149): the text, date,
checked and number fields are examined in that order, each non-empty one
assigning the holder; a date parse failure returns immediately, after the
failed `time.Parse` has already assigned the zero time to the holder. -/
def unmarshalObj (cur : GoVal) (c : Cfval) : GoVal × Option CFErr :=
  let v1 := if c.text = "" then cur else GoVal.str c.text
  if c.date = "" then unmarshalTail v1 c
  else
    match goTimeParse c.date with
    | .ok t => unmarshalTail (GoVal.time t) c
    | .error e => (GoVal.time zeroGoTime, some e)

/-- Models `CustomFieldValue.UnmarshalJSON` on a receiver currently holding
`cur`: `json.Unmarshal` of a bare JSON string into the `cfval` struct fails
with a type error before any field is looked at (the holder keeps `cur`);
an object is unpacked field by field.  Returns the final holder state and
the returned error, if any. -/
def unmarshalJSON (cur : GoVal) : Wire → GoVal × Option CFErr
  | .str _ => (cur, some .jsonType)
  | .obj c => unmarshalObj cur c

/-- Encode then decode into a fresh (zero, `nil`-holding) value — the
round-trip the spec describes. -/
def decodeEncode (v : GoVal) : GoVal × Option CFErr :=
  match marshalJSON v with
  | .error e => (GoVal.nil, some e)
  | .ok w => unmarshalJSON GoVal.nil w

/-- The struct `CustomFieldItem` of `custom-fields.go`. -/
structure CustomFieldItem where
  id : String := ""
  value : GoVal := GoVal.nil
  idValue : String := ""
  idCustomField : String := ""
  idModel : String := ""
  idModelType : String := ""
deriving DecidableEq

/-- Modelled from the spec: query arguments, a set of key/value pairs
(`arguments.go` is not part of the sources under inspection). -/
abbrev Arguments := List (String × String)

/-- Modelled from the spec: `flattenArguments` merges the variadic extra
argument maps into one. -/
def flattenArguments (extraArgs : List Arguments) : Arguments :=
  extraArgs.flatten

/-- The PUT request `SetCustomFieldByItem` hands to `Client.PutJSON`
(modelled from the spec: the HTTP layer is an external collaborator; what
matters here is whether a request is attempted at all, at which path and
with which body). -/
structure PutRequest where
  path : String
  args : Arguments
  body : CustomFieldItem
deriving DecidableEq

/-- Models `Client.SetCustomFieldByItem` (lines 25–37): reject any
non-empty model type other than `"card"` before doing anything else;
otherwise build the card path and submit a fresh item carrying only the
value. -/
def setCustomFieldByItem (cfi : CustomFieldItem) (extraArgs : List Arguments) :
    Except CFErr PutRequest :=
  if cfi.idModelType ≠ "" ∧ cfi.idModelType ≠ "card" then
    .error (.unsupportedModelType cfi.idModelType)
  else
    .ok { path := "cards/" ++ cfi.idModel ++ "/customField/" ++ cfi.idCustomField ++ "/item",
          args := flattenArguments extraArgs,
          body := { value := cfi.value } }

deriving instance DecidableEq for Except

theorem charToDigit_digitChar : ∀ d < 10, charToDigit (Nat.digitChar d) = d := by decide

theorem isDigit_digitChar : ∀ d < 10, (Nat.digitChar d).isDigit = true := by decide

theorem valDigits_append (acc : Nat) (a b : List Char) :
    valDigits acc (a ++ b) = valDigits (valDigits acc a) b := by
  simp [valDigits, List.foldl_append]

theorem valDigits_singleton (acc : Nat) (c : Char) :
    valDigits acc [c] = acc * 10 + charToDigit c := rfl

theorem natToDigitsFuel_congr :
    ∀ fuel fuel' n, n < fuel → n < fuel' → natToDigitsFuel fuel n = natToDigitsFuel fuel' n := by
  intro fuel
  induction fuel with
  | zero => intro fuel' n h _; omega
  | succ fuel ih =>
    intro fuel' n h h'
    cases fuel' with
    | zero => omega
    | succ fuel' =>
      simp only [natToDigitsFuel]
      by_cases h10 : n < 10
      · simp [h10]
      · simp only [h10, if_false, reduceIte]
        have hd : n / 10 < n := Nat.div_lt_self (by omega) (by omega)
        rw [ih fuel' (n / 10) (by omega) (by omega)]

theorem natToDigits_eq (n : Nat) :
    natToDigits n =
      if n < 10 then [Nat.digitChar n]
      else natToDigits (n / 10) ++ [Nat.digitChar (n % 10)] := by
  show natToDigitsFuel (n + 1) n = _
  simp only [natToDigitsFuel]
  by_cases h : n < 10
  · simp [h]
  · simp only [h, if_false, reduceIte]
    have hd : n / 10 < n := Nat.div_lt_self (by omega) (by omega)
    rw [natToDigitsFuel_congr n (n / 10 + 1) (n / 10) (by omega) (by omega)]
    rfl

theorem natToDigits_spec (n : Nat) :
    natToDigits n ≠ [] ∧ (∀ c ∈ natToDigits n, c.isDigit = true) ∧
      ∀ acc, valDigits acc (natToDigits n) = acc * 10 ^ (natToDigits n).length + n := by
  induction n using Nat.strong_induction_on with
  | _ n ih =>
    rw [natToDigits_eq]
    by_cases h : n < 10
    · rw [if_pos h]
      refine ⟨by simp, ?_, ?_⟩
      · intro c hc
        simp only [List.mem_singleton] at hc
        subst hc
        exact isDigit_digitChar n h
      · intro acc
        simp [valDigits_singleton, charToDigit_digitChar n h]
    · have hlt : n / 10 < n := Nat.div_lt_self (by omega) (by omega)
      obtain ⟨ihne, ihdig, ihval⟩ := ih (n / 10) hlt
      rw [if_neg h]
      refine ⟨by simp, ?_, ?_⟩
      · intro c hc
        rcases List.mem_append.mp hc with hc | hc
        · exact ihdig c hc
        · simp only [List.mem_singleton] at hc
          subst hc
          exact isDigit_digitChar _ (Nat.mod_lt _ (by omega))
      · intro acc
        rw [valDigits_append, valDigits_singleton, ihval acc,
          charToDigit_digitChar _ (Nat.mod_lt _ (by omega))]
        simp only [List.length_append, List.length_singleton]
        have hdm := Nat.div_add_mod n 10
        ring_nf
        omega

theorem natToDigits_ne_nil (n : Nat) : natToDigits n ≠ [] := (natToDigits_spec n).1

theorem natToDigits_digits (n : Nat) : ∀ c ∈ natToDigits n, c.isDigit = true :=
  (natToDigits_spec n).2.1

theorem natToDigits_val (n : Nat) : valDigits 0 (natToDigits n) = n := by
  have := (natToDigits_spec n).2.2 0
  simpa using this

theorem natToDigits_length_le (k : Nat) : ∀ n, 1 ≤ k → n < 10 ^ k → (natToDigits n).length ≤ k := by
  induction k with
  | zero => intro n h; omega
  | succ k ihk =>
    intro n _ hn
    rw [natToDigits_eq]
    by_cases h : n < 10
    · rw [if_pos h]
      simp only [List.length_singleton]
      omega
    · rw [if_neg h]
      simp only [List.length_append, List.length_singleton]
      have hk : 1 ≤ k := by
        by_contra hk0
        have : k = 0 := by omega
        subst this
        simp at hn
        omega
      have hdiv : n / 10 < 10 ^ k := by
        rw [Nat.div_lt_iff_lt_mul (by omega)]
        calc n < 10 ^ (k + 1) := hn
        _ = 10 ^ k * 10 := by ring
      have := ihk (n / 10) hk hdiv
      omega

theorem valDigits_replicate_zero (acc j : Nat) :
    valDigits acc (List.replicate j '0') = acc * 10 ^ j := by
  induction j generalizing acc with
  | zero => simp [valDigits]
  | succ j ih =>
    rw [List.replicate_succ]
    have hstep : valDigits acc ('0' :: List.replicate j '0') =
        valDigits (acc * 10 + charToDigit '0') (List.replicate j '0') := rfl
    rw [hstep, ih]
    have : charToDigit '0' = 0 := by decide
    rw [this]
    ring

theorem padLeft_digits (k : Nat) (l : List Char) (h : ∀ c ∈ l, c.isDigit = true) :
    ∀ c ∈ padLeft k l, c.isDigit = true := by
  intro c hc
  rcases List.mem_append.mp hc with hc | hc
  · have := List.eq_of_mem_replicate hc
    subst this
    decide
  · exact h c hc

theorem padLeft_length (k : Nat) (l : List Char) (h : l.length ≤ k) :
    (padLeft k l).length = k := by
  simp [padLeft]
  omega

theorem valDigits_padLeft (k : Nat) (l : List Char) :
    valDigits 0 (padLeft k l) = valDigits 0 l := by
  rw [padLeft, valDigits_append, valDigits_replicate_zero]
  simp

theorem takeDigitsAux_append (ds : List Char) :
    ∀ (acc : Nat) (rest : List Char), (∀ c ∈ ds, c.isDigit = true) →
      takeDigitsAux acc ds.length (ds ++ rest) = some (valDigits acc ds, rest) := by
  induction ds with
  | nil => intro acc rest _; rfl
  | cons c ds ih =>
    intro acc rest h
    have hc : c.isDigit = true := h c (by simp)
    have hstep : takeDigitsAux acc (c :: ds).length ((c :: ds) ++ rest) =
        takeDigitsAux (acc * 10 + charToDigit c) ds.length (ds ++ rest) := by
      simp [takeDigitsAux, hc]
    rw [hstep, ih _ _ (fun x hx => h x (by simp [hx]))]
    rfl

theorem takeDigits_pad (k n : Nat) (rest : List Char) (hk : 1 ≤ k) (hn : n < 10 ^ k) :
    takeDigits k (padLeft k (natToDigits n) ++ rest) = some (n, rest) := by
  have hlen : (padLeft k (natToDigits n)).length = k :=
    padLeft_length k _ (natToDigits_length_le k n hk hn)
  have hdig := padLeft_digits k _ (natToDigits_digits n)
  have := takeDigitsAux_append (padLeft k (natToDigits n)) 0 rest hdig
  rw [hlen] at this
  rw [takeDigits, this, valDigits_padLeft, natToDigits_val]

theorem expect_cons (c : Char) (r : List Char) : expect c (c :: r) = some r := by
  simp [expect]

theorem stripSign_digit (c : Char) (r : List Char) (h : c.isDigit = true) :
    stripSign (c :: r) = (false, c :: r) := by
  have h1 : ¬(c = '-') := by rintro rfl; simp [Char.isDigit] at h
  have h2 : ¬(c = '+') := by rintro rfl; simp [Char.isDigit] at h
  simp [stripSign, h1, h2]

theorem digitsVal?_of_digits (l : List Char) (h1 : l ≠ []) (h2 : ∀ c ∈ l, c.isDigit = true) :
    digitsVal? l = some (valDigits 0 l) := by
  have : l.all Char.isDigit = true := List.all_eq_true.mpr h2
  simp [digitsVal?, h1, this]

theorem digitsVal?_of_not_digit (l : List Char) (c : Char) (hc : c ∈ l)
    (h : c.isDigit = false) : digitsVal? l = none := by
  have hne : l ≠ [] := by rintro rfl; simp at hc
  have : l.all Char.isDigit = false := by
    rw [List.all_eq_false]
    exact ⟨c, hc, by simp [h]⟩
  simp [digitsVal?, hne, this]

theorem takeWhile_digits_stop (ds : List Char) (x : Char) (r : List Char)
    (h : ∀ c ∈ ds, c.isDigit = true) (hx : x.isDigit = false) :
    (ds ++ x :: r).takeWhile Char.isDigit = ds ∧
      (ds ++ x :: r).dropWhile Char.isDigit = x :: r := by
  induction ds with
  | nil => simp [List.takeWhile, List.dropWhile, hx]
  | cons c ds ih =>
    have hc : c.isDigit = true := h c (by simp)
    have := ih (fun y hy => h y (by simp [hy]))
    simp only [List.cons_append, List.takeWhile_cons, List.dropWhile_cons, hc]
    simp only [if_true, this.1, this.2, and_self, reduceIte]

theorem takeWhile_digits_all (ds : List Char) (h : ∀ c ∈ ds, c.isDigit = true) :
    ds.takeWhile Char.isDigit = ds ∧ ds.dropWhile Char.isDigit = [] := by
  induction ds with
  | nil => simp
  | cons c ds ih =>
    have hc : c.isDigit = true := h c (by simp)
    have := ih (fun y hy => h y (by simp [hy]))
    simp only [List.takeWhile_cons, List.dropWhile_cons, hc]
    simp [this.1, this.2]

theorem toList_mk (l : List Char) : (String.mk l).toList = l := rfl

theorem goAtoiList_eval (neg : Bool) (l l1 : List Char) (n : Nat)
    (hs : stripSign l = (neg, l1)) (hdv : digitsVal? l1 = some n) :
    goAtoiList l =
      if neg then (if n ≤ 2 ^ 63 then some (-(n : Int)) else none)
      else (if n < 2 ^ 63 then some (n : Int) else none) := by
  simp only [goAtoiList, hs, hdv]

theorem goAtoiList_none (neg : Bool) (l l1 : List Char)
    (hs : stripSign l = (neg, l1)) (hdv : digitsVal? l1 = none) :
    goAtoiList l = none := by
  simp only [goAtoiList, hs, hdv]

theorem natToDigits_cons (n : Nat) : ∃ c r, natToDigits n = c :: r ∧ c.isDigit = true := by
  cases h : natToDigits n with
  | nil => exact absurd h (natToDigits_ne_nil n)
  | cons c r => exact ⟨c, r, rfl, natToDigits_digits n c (h ▸ List.mem_cons_self c r)⟩

theorem stripSign_natToDigits_append (n : Nat) (rest : List Char) :
    stripSign (natToDigits n ++ rest) = (false, natToDigits n ++ rest) := by
  obtain ⟨c, r, hcr, hc⟩ := natToDigits_cons n
  rw [hcr, List.cons_append, stripSign_digit c _ hc, ← List.cons_append, ← hcr]

theorem goAtoi_goFormatInt (n : Int) (h1 : -(2 ^ 63) ≤ n) (h2 : n < 2 ^ 63) :
    goAtoi (goFormatInt n) = some n := by
  have hdv := digitsVal?_of_digits _ (natToDigits_ne_nil n.natAbs) (natToDigits_digits n.natAbs)
  rw [natToDigits_val] at hdv
  rcases lt_or_le n 0 with hneg | hpos
  · have hfmt : goFormatInt n = String.mk ('-' :: natToDigits n.natAbs) := by
      simp [goFormatInt, hneg]
    rw [goAtoi, hfmt, toList_mk]
    have hs : stripSign ('-' :: natToDigits n.natAbs) = (true, natToDigits n.natAbs) := by
      simp [stripSign]
    rw [goAtoiList_eval true _ _ n.natAbs hs hdv, if_pos rfl,
      if_pos (show n.natAbs ≤ 2 ^ 63 by omega)]
    congr 1
    omega
  · have hfmt : goFormatInt n = String.mk (natToDigits n.natAbs) := by
      simp [goFormatInt, not_lt.mpr hpos]
    rw [goAtoi, hfmt, toList_mk]
    have hs : stripSign (natToDigits n.natAbs) = (false, natToDigits n.natAbs) := by
      have := stripSign_natToDigits_append n.natAbs []
      simpa using this
    rw [goAtoiList_eval false _ _ n.natAbs hs hdv, if_neg (by decide),
      if_pos (show n.natAbs < 2 ^ 63 by omega)]
    congr 1
    omega

theorem goAtoi_goFormatFloat (q : ℚ) : goAtoi (goFormatFloat q) = none := by
  have hdot : ('.' : Char).isDigit = false := by decide
  rw [goAtoi]
  simp only [goFormatFloat, toList_mk]
  set m := (roundHalfEven (|q| * 1000000)).toNat with hm
  set D := natToDigits (m / 1000000) with hD
  set P := padLeft 6 (natToDigits (m % 1000000)) with hP
  have hdv : digitsVal? (D ++ '.' :: P) = none := digitsVal?_of_not_digit _ '.' (by simp) hdot
  rcases lt_or_le q 0 with hneg | hpos
  · rw [if_pos hneg]
    have hs : stripSign (['-'] ++ (D ++ '.' :: P)) = (true, D ++ '.' :: P) := by
      simp [stripSign]
    exact goAtoiList_none true _ _ hs hdv
  · rw [if_neg (not_lt.mpr hpos), List.nil_append]
    have hs : stripSign (D ++ '.' :: P) = (false, D ++ '.' :: P) := by
      rw [hD]
      exact stripSign_natToDigits_append _ _
    exact goAtoiList_none false _ _ hs hdv

theorem ratFloor_intCast (k : Int) : ratFloor ((k : ℚ)) = k := by
  simp [ratFloor, Rat.num_intCast, Rat.den_intCast, Int.fdiv_one]

theorem roundHalfEven_intCast (k : Int) : roundHalfEven ((k : ℚ)) = k := by
  simp only [roundHalfEven, ratFloor_intCast, sub_self]
  rw [if_pos (by norm_num)]

theorem goParseFloatCore_fixed6 (neg : Bool) (A B : Nat) (hB : B < 1000000) :
    goParseFloatCore neg (natToDigits A ++ '.' :: padLeft 6 (natToDigits B)) =
      some (if neg then -(((A * 1000000 + B : Nat) : ℚ) / 1000000)
            else ((A * 1000000 + B : Nat) : ℚ) / 1000000) := by
  have htw := takeWhile_digits_stop (natToDigits A) '.' (padLeft 6 (natToDigits B))
    (natToDigits_digits A) (by decide)
  have hfr := takeWhile_digits_all (padLeft 6 (natToDigits B))
    (padLeft_digits _ _ (natToDigits_digits B))
  have hlen : (padLeft 6 (natToDigits B)).length = 6 :=
    padLeft_length 6 _ (natToDigits_length_le 6 B (by omega) (by omega))
  have hvB : valDigits 0 (padLeft 6 (natToDigits B)) = B := by
    rw [valDigits_padLeft, natToDigits_val]
  simp only [goParseFloatCore, htw.1, htw.2, hfr.1, hfr.2]
  rw [mkFloat, if_neg (by simp [natToDigits_ne_nil A])]
  simp only [parseExpTail]
  rw [hlen, hvB, natToDigits_val]
  have hpow : pow10Z 0 = 1 := by norm_num [pow10Z]
  rw [hpow, mul_one]
  congr 1
  by_cases hn : neg
  · rw [if_pos hn, if_pos hn]
    push_cast
    norm_num
  · rw [if_neg hn, if_neg hn]
    push_cast
    norm_num

theorem goParseFloat_goFormatFloat (q : ℚ) (z : Int) (hz : q * 1000000 = (z : ℚ))
    (bits : Nat) : goParseFloat (goFormatFloat q) bits = some q := by
  have habs : |q| * 1000000 = (((z.natAbs : Int)) : ℚ) := by
    rcases le_or_lt 0 q with h | h
    · have hz0 : (0 : ℚ) ≤ (z : ℚ) := by rw [← hz]; positivity
      have : (0 : Int) ≤ z := by exact_mod_cast hz0
      have hzn : ((z.natAbs : Int)) = z := by omega
      rw [abs_of_nonneg h, hzn, hz]
    · have hz0 : (z : ℚ) < 0 := by
        rw [← hz]
        have : (0 : ℚ) < 1000000 := by norm_num
        nlinarith
      have : z < 0 := by exact_mod_cast hz0
      have hzn : ((z.natAbs : Int)) = -z := by omega
      rw [abs_of_neg h, hzn]
      push_cast
      rw [neg_mul, hz]
  have hr : roundHalfEven (|q| * 1000000) = (z.natAbs : Int) := by
    rw [habs, roundHalfEven_intCast]
  rw [goParseFloat]
  simp only [goFormatFloat, toList_mk, hr, Int.toNat_natCast]
  have hBlt : z.natAbs % 1000000 < 1000000 := Nat.mod_lt _ (by norm_num)
  have hM : z.natAbs / 1000000 * 1000000 + z.natAbs % 1000000 = z.natAbs := by omega
  rcases lt_or_le q 0 with hneg | hpos
  · rw [if_pos hneg]
    have hzneg : z < 0 := by
      have hz0 : (z : ℚ) < 0 := by
        rw [← hz]
        have : (0 : ℚ) < 1000000 := by norm_num
        nlinarith
      exact_mod_cast hz0
    have hs : stripSign (['-'] ++ (natToDigits (z.natAbs / 1000000) ++
        '.' :: padLeft 6 (natToDigits (z.natAbs % 1000000)))) =
        (true, natToDigits (z.natAbs / 1000000) ++
          '.' :: padLeft 6 (natToDigits (z.natAbs % 1000000))) := by
      simp [stripSign]
    simp only [goParseFloatList, hs]
    rw [goParseFloatCore_fixed6 true _ _ hBlt, if_pos rfl, hM]
    congr 1
    have hcast : ((z.natAbs : Nat) : ℚ) = -(z : ℚ) := by
      have h1 : ((z.natAbs : Int)) = -z := by omega
      calc ((z.natAbs : Nat) : ℚ) = (((z.natAbs : Int)) : ℚ) := (Int.cast_natCast z.natAbs).symm
        _ = ((-z : Int) : ℚ) := by rw [h1]
        _ = -(z : ℚ) := by push_cast; ring
    rw [hcast, ← hz]
    field_simp
  · rw [if_neg (not_lt.mpr hpos), List.nil_append]
    have hzpos : (0 : Int) ≤ z := by
      have hz0 : (0 : ℚ) ≤ (z : ℚ) := by rw [← hz]; positivity
      exact_mod_cast hz0
    have hs := stripSign_natToDigits_append (z.natAbs / 1000000)
      ('.' :: padLeft 6 (natToDigits (z.natAbs % 1000000)))
    simp only [goParseFloatList, hs]
    rw [goParseFloatCore_fixed6 false _ _ hBlt, if_neg (by decide), hM]
    congr 1
    have hcast : ((z.natAbs : Nat) : ℚ) = (z : ℚ) := by
      have h1 : ((z.natAbs : Int)) = z := by omega
      calc ((z.natAbs : Nat) : ℚ) = (((z.natAbs : Int)) : ℚ) := (Int.cast_natCast z.natAbs).symm
        _ = (z : ℚ) := by rw [h1]
    rw [hcast, ← hz]
    field_simp

theorem daysInMonth_le (y : Int) (m : Nat) : daysInMonth y m ≤ 31 := by
  unfold daysInMonth
  split <;> first | omega | (split <;> omega)

theorem goTimeParseList_format (t : GoTime) (hv : validTime t) :
    goTimeParseList (goTimeFormat t).toList =
      some ⟨t.year, t.month, t.day, t.hour, t.minute, t.second, 0, 0⟩ := by
  obtain ⟨hy1, hy2, hm1, hm2, hd1, hd2, hh, hmi, hs2⟩ := hv
  have hdm := daysInMonth_le t.year t.month
  have hynn : ¬(t.year < 0) := by omega
  have hyA : ((t.year.natAbs : Nat) : Int) = t.year := by omega
  have h4 : ∀ rest, takeDigits 4 (padLeft 4 (natToDigits t.year.natAbs) ++ rest) =
      some (t.year.natAbs, rest) :=
    fun rest => takeDigits_pad 4 _ rest (by omega) (by omega)
  have e2 : ∀ n, n < 100 → ∀ rest, takeDigits 2 (padLeft 2 (natToDigits n) ++ rest) =
      some (n, rest) :=
    fun n hn rest => takeDigits_pad 2 n rest (by omega) (by omega)
  rw [goTimeFormat, toList_mk, pad4Year, if_neg hynn, List.nil_append]
  simp only [pad2]
  simp only [goTimeParseList, h4, e2 t.month (by omega), e2 t.day (by omega),
    e2 t.hour (by omega), e2 t.minute (by omega), e2 t.second (by omega),
    expect_cons, Option.some_bind, hyA]
  rw [if_pos ⟨trivial, hm1, hm2, hd1, hd2, hh, hmi, hs2⟩]

theorem goTimeParse_goTimeFormat (t : GoTime) (hv : validTime t) (hn : t.nano = 0)
    (ho : t.offset = 0) : goTimeParse (goTimeFormat t) = .ok t := by
  simp only [goTimeParse, goTimeParseList_format t hv]
  have : (⟨t.year, t.month, t.day, t.hour, t.minute, t.second, 0, 0⟩ : GoTime) = t := by
    cases t
    simp_all
  rw [this]

theorem ratFloor_zero_of_lt_one (q : ℚ) (h0 : 0 ≤ q) (h1 : q < 1) : ratFloor q = 0 := by
  have hnum : 0 ≤ q.num := Rat.num_nonneg.mpr h0
  have hden : (0 : ℚ) < (q.den : ℚ) := by exact_mod_cast q.den_pos
  have hlt : q.num < (q.den : Int) := by
    have hq : (q.num : ℚ) < (q.den : ℚ) := by
      rw [← Rat.num_div_den q] at h1
      exact (div_lt_one hden).mp h1
    exact_mod_cast hq
  obtain ⟨m, hm⟩ := Int.eq_ofNat_of_zero_le hnum
  have hmd : m < q.den := by omega
  rw [ratFloor, hm]
  show Int.fdiv (Int.ofNat m) (Int.ofNat q.den) = 0
  cases m with
  | zero => rfl
  | succ m' =>
    simp only [Int.fdiv]
    rw [Nat.div_eq_of_lt hmd]
    rfl

theorem roundHalfEven_eq_zero (x : ℚ) (h0 : 0 ≤ x) (h2 : x < 1 / 2) : roundHalfEven x = 0 := by
  have hfl : ratFloor x = 0 :=
    ratFloor_zero_of_lt_one x h0 (lt_trans h2 (by norm_num))
  simp only [roundHalfEven, hfl, Int.cast_zero, sub_zero]
  rw [if_pos h2]

theorem goFormatFloat_small (q : ℚ) (h0 : 0 ≤ q) (h2 : q * 1000000 < 1 / 2) :
    goFormatFloat q = "0.000000" := by
  have hr : roundHalfEven (|q| * 1000000) = 0 := by
    rw [abs_of_nonneg h0]
    exact roundHalfEven_eq_zero _ (by positivity) h2
  simp only [goFormatFloat, hr]
  rw [if_neg (not_lt.mpr h0)]
  decide

theorem goParseFloat_zeroStr (bits : Nat) : goParseFloat "0.000000" bits = some 0 := by
  have hl : "0.000000".toList = natToDigits 0 ++ '.' :: padLeft 6 (natToDigits 0) := by decide
  have hs : stripSign (natToDigits 0 ++ '.' :: padLeft 6 (natToDigits 0)) =
      (false, natToDigits 0 ++ '.' :: padLeft 6 (natToDigits 0)) :=
    stripSign_natToDigits_append 0 _
  rw [goParseFloat, hl]
  simp only [goParseFloatList, hs]
  rw [goParseFloatCore_fixed6 false 0 0 (by norm_num)]
  norm_num

theorem goParseFloat_pi (bits : Nat) : goParseFloat "3.14" bits = some (157 / 50) := by
  have hl : "3.14".toList = '3' :: '.' :: '1' :: '4' :: [] := by decide
  have hs : stripSign ('3' :: '.' :: '1' :: '4' :: []) =
      (false, '3' :: '.' :: '1' :: '4' :: []) := by decide
  have htw : List.takeWhile Char.isDigit ('3' :: '.' :: '1' :: '4' :: []) = ['3'] := by decide
  have hdw : List.dropWhile Char.isDigit ('3' :: '.' :: '1' :: '4' :: []) =
      '.' :: '1' :: '4' :: [] := by decide
  have htw2 : List.takeWhile Char.isDigit ('1' :: '4' :: []) = ['1', '4'] := by decide
  have hdw2 : List.dropWhile Char.isDigit ('1' :: '4' :: []) = [] := by decide
  rw [goParseFloat, hl]
  simp only [goParseFloatList, hs, goParseFloatCore, htw, hdw, htw2, hdw2]
  rw [mkFloat, if_neg (by decide)]
  simp only [parseExpTail]
  have hv1 : valDigits 0 ['3'] = 3 := by decide
  have hv2 : valDigits 0 ['1', '4'] = 14 := by decide
  have hlen : (['1', '4'] : List Char).length = 2 := by decide
  rw [hv1, hv2, hlen]
  have hpow : pow10Z 0 = 1 := by norm_num [pow10Z]
  rw [hpow, mul_one]
  norm_num

theorem string_mk_ne_empty (l : List Char) (h : l ≠ []) : String.mk l ≠ "" := by
  intro hc
  have := congrArg String.toList hc
  rw [toList_mk] at this
  exact h this

theorem goFormatInt_ne_empty (n : Int) : goFormatInt n ≠ "" := by
  apply string_mk_ne_empty
  intro h
  rcases List.append_eq_nil.mp h with ⟨_, h2⟩
  exact natToDigits_ne_nil _ h2

theorem goFormatFloat_ne_empty (q : ℚ) : goFormatFloat q ≠ "" := by
  apply string_mk_ne_empty
  intro h
  rcases List.append_eq_nil.mp h with ⟨_, h2⟩
  rcases List.append_eq_nil.mp h2 with ⟨h3, _⟩
  exact natToDigits_ne_nil _ h3

theorem goTimeFormat_ne_empty (t : GoTime) : goTimeFormat t ≠ "" := by
  apply string_mk_ne_empty
  intro h
  rcases List.append_eq_nil.mp h with ⟨_, h2⟩
  exact List.cons_ne_nil _ _ h2

/-- C3 (corrected): encoding the empty string does produce the bare
empty-string wire value, but decoding that bare value fails with a JSON
type error (the holder keeps its previous state); it is an object with
none of the four fields populated whose decoding leaves the value unset
with no error. -/
theorem c3_empty_string :
    marshalJSON (GoVal.str "") = Except.ok (Wire.str "") ∧
      (∀ cur : GoVal, unmarshalJSON cur (Wire.str "") = (cur, some CFErr.jsonType)) ∧
      (∀ cur : GoVal, unmarshalJSON cur (Wire.obj ⟨"", "", "", ""⟩) = (cur, none)) :=
  ⟨rfl, fun _ => rfl, fun _ => rfl⟩

/-- C3 counterexample: decoding the bare empty-string wire value does not
succeed — it reports an error rather than yielding an unset value with no
error. -/
theorem c3_counterexample :
    unmarshalJSON GoVal.nil (Wire.str "") ≠ (GoVal.nil, none) := by decide

/-- C7: a `CustomFieldItem` whose model-type tag is non-empty and different
from `"card"` is rejected with the unsupported-model-type error; no request
value is produced (the `Except.error` result carries no `PutRequest`), so
nothing reaches the HTTP layer. -/
theorem c7_unsupported_model_type (cfi : CustomFieldItem) (extraArgs : List Arguments)
    (h1 : cfi.idModelType ≠ "") (h2 : cfi.idModelType ≠ "card") :
    setCustomFieldByItem cfi extraArgs =
      Except.error (CFErr.unsupportedModelType cfi.idModelType) := by
  rw [setCustomFieldByItem, if_pos ⟨h1, h2⟩]

theorem c7_witness :
    setCustomFieldByItem { idModelType := "board" } [] =
      Except.error (CFErr.unsupportedModelType "board") :=
  c7_unsupported_model_type { idModelType := "board" } [] (by decide) (by decide)

/-- C8: a value of a type with no wire mapping (and a `nil` value, which
matches no case of the type switch) makes encoding fail with the
unsupported-type error, producing no wire output. -/
theorem c8_unsupported_type :
    (∀ d : String, marshalJSON (GoVal.other d) = Except.error CFErr.unsupportedType) ∧
      marshalJSON GoVal.nil = Except.error CFErr.unsupportedType :=
  ⟨fun _ => rfl, rfl⟩

/-- C9: the guard of `SetCustomFieldByItem` only rejects a non-empty tag
different from `"card"`, so the zero-value (empty) model-type tag passes
and the PUT request is built and issued. -/
theorem c9_empty_model_type (cfi : CustomFieldItem) (extraArgs : List Arguments)
    (h : cfi.idModelType = "") :
    setCustomFieldByItem cfi extraArgs =
      Except.ok
        { path := "cards/" ++ cfi.idModel ++ "/customField/" ++ cfi.idCustomField ++ "/item",
          args := flattenArguments extraArgs,
          body := { value := cfi.value } } := by
  rw [setCustomFieldByItem, if_neg (by simp [h])]

theorem c9_witness :
    setCustomFieldByItem { value := GoVal.str "x", idModel := "m1", idCustomField := "f1" } [] =
      Except.ok
        { path := "cards/m1/customField/f1/item", args := [],
          body := { value := GoVal.str "x" } } := by
  rw [c9_empty_model_type _ _ rfl]
  decide

/-- C2 counterexample: with both `text` and `number` populated, the decoded
value comes from `number` (the later field), not from `text` (the first
non-empty field in the examination order), so "first non-empty field wins"
fails. -/
theorem c2_counterexample :
    unmarshalJSON GoVal.nil (Wire.obj ⟨"a", "7", "", ""⟩) = (GoVal.int 7, none) ∧
      GoVal.int 7 ≠ GoVal.str "a" := by
  exact ⟨by decide, by decide⟩

/-- C2 (amended): decode examines the four fields in the fixed order text,
date, checked, number, and each populated field overwrites the value, so
the last non-empty field in that order determines the result (number
strongest, then checked, then date, then text). -/
theorem c2_last_field_wins (cur : GoVal) (c : Cfval) (t : GoTime) (n : GoVal)
    (hd : c.date ≠ "" → goTimeParse c.date = Except.ok t)
    (hn : c.number ≠ "" → numberChain c.number = Except.ok n) :
    unmarshalJSON cur (Wire.obj c) =
      (if c.number ≠ "" then n
       else if c.checked ≠ "" then GoVal.bool (c.checked == "true")
       else if c.date ≠ "" then GoVal.time t
       else if c.text ≠ "" then GoVal.str c.text
       else cur, none) := by
  rcases eq_or_ne c.date "" with hdate | hdate
  · rcases eq_or_ne c.number "" with hnum | hnum
    · rcases eq_or_ne c.checked "" with hchk | hchk
      · rcases eq_or_ne c.text "" with htext | htext <;>
          simp [unmarshalJSON, unmarshalObj, unmarshalTail, hdate, hnum, hchk, htext]
      · simp [unmarshalJSON, unmarshalObj, unmarshalTail, hdate, hnum, hchk]
    · have hnc := hn hnum
      simp [unmarshalJSON, unmarshalObj, unmarshalTail, hdate, hnum, hnc]
  · have hdc := hd hdate
    rcases eq_or_ne c.number "" with hnum | hnum
    · rcases eq_or_ne c.checked "" with hchk | hchk <;>
        simp [unmarshalJSON, unmarshalObj, unmarshalTail, hdate, hdc, hnum, hchk]
    · have hnc := hn hnum
      simp [unmarshalJSON, unmarshalObj, unmarshalTail, hdate, hdc, hnum, hnc]

theorem c2_witness :
    unmarshalJSON GoVal.nil (Wire.obj ⟨"b", "8", "", ""⟩) = (GoVal.int 8, none) := by
  have h := c2_last_field_wins GoVal.nil ⟨"b", "8", "", ""⟩ zeroGoTime (GoVal.int 8)
    (fun hc => absurd rfl hc) (fun _ => by decide)
  rw [if_pos (show ("8" : String) ≠ "" by decide)] at h
  exact h

/-- C4: a non-empty `number` field is parsed by trying, in order,
`strconv.Atoi`, `ParseFloat(·, 64)`, `ParseFloat(·, 32)`,
`ParseInt(·, 10, 64)`; the first success determines the value
(`"42"` gives integer 42, `"3.14"` gives float 3.14), and when all four
fail, decode returns the "cannot convert" error naming the string. -/
theorem c4_number_chain :
    (∀ (cur : GoVal) (s : String), s ≠ "" →
      unmarshalJSON cur (Wire.obj ⟨"", s, "", ""⟩) =
        (match goAtoi s with
         | some n => (GoVal.int n, none)
         | none =>
           match goParseFloat s 64 with
           | some q => (GoVal.float q, none)
           | none =>
             match goParseFloat s 32 with
             | some q => (GoVal.float q, none)
             | none =>
               match goParseInt64 s with
               | some n => (GoVal.int64 n, none)
               | none => (GoVal.int64 0, some (CFErr.numberConversion s)))) ∧
    unmarshalJSON GoVal.nil (Wire.obj ⟨"", "42", "", ""⟩) = (GoVal.int 42, none) ∧
    unmarshalJSON GoVal.nil (Wire.obj ⟨"", "3.14", "", ""⟩) =
      (GoVal.float (157 / 50), none) ∧
    unmarshalJSON GoVal.nil (Wire.obj ⟨"", "abc", "", ""⟩) =
      (GoVal.int64 0, some (CFErr.numberConversion "abc")) := by
  constructor
  · intro cur s hs
    simp only [unmarshalJSON, unmarshalObj, unmarshalTail, numberChain]
    rcases h1 : goAtoi s with _ | n1
    · rcases h2 : goParseFloat s 64 with _ | q2
      · rcases h3 : goParseFloat s 32 with _ | q3
        · rcases h4 : goParseInt64 s with _ | n4 <;> simp [hs, h1, h2, h3, h4]
        · simp [hs, h1, h2, h3]
      · simp [hs, h1, h2]
    · simp [hs, h1]
  · refine ⟨by decide, ?_, by decide⟩
    have ha : goAtoi "3.14" = none := by decide
    have hne : ("3.14" : String) ≠ "" := by decide
    simp [unmarshalJSON, unmarshalObj, unmarshalTail, numberChain, hne, ha, goParseFloat_pi]

theorem c4_witness :
    unmarshalJSON GoVal.nil (Wire.obj ⟨"", "7", "", ""⟩) = (GoVal.int 7, none) := by
  have h := c4_number_chain.1 GoVal.nil "7" (by decide)
  rw [h]
  decide

/-- C5: a non-empty `date` field is parsed with the fixed layout
`2006-01-02T15:04:05Z`; a successful parse (with no later field populated)
yields the corresponding UTC timestamp, and a parse failure returns the
error immediately — the result does not depend on the `checked` or
`number` fields, which are never reached. -/
theorem c5_date_parse :
    (∀ (cur : GoVal) (c : Cfval) (t : GoTime), c.date ≠ "" →
        goTimeParse c.date = Except.ok t → c.checked = "" → c.number = "" →
        unmarshalJSON cur (Wire.obj c) = (GoVal.time t, none)) ∧
      (∀ (cur : GoVal) (c : Cfval) (e : CFErr), c.date ≠ "" →
        goTimeParse c.date = Except.error e →
        unmarshalJSON cur (Wire.obj c) = (GoVal.time zeroGoTime, some e)) ∧
      goTimeParse "2021-06-01T10:00:00Z" = Except.ok ⟨2021, 6, 1, 10, 0, 0, 0, 0⟩ ∧
      goTimeParse "not-a-date" = Except.error (CFErr.timeParse "not-a-date") := by
  refine ⟨?_, ?_, by decide, by decide⟩
  · intro cur c t hd hp hchk hnum
    simp [unmarshalJSON, unmarshalObj, unmarshalTail, hd, hp, hchk, hnum]
  · intro cur c e hd hp
    simp [unmarshalJSON, unmarshalObj, hd, hp]

theorem c5_witness :
    unmarshalJSON GoVal.nil (Wire.obj ⟨"", "", "2021-06-01T10:00:00Z", ""⟩) =
      (GoVal.time ⟨2021, 6, 1, 10, 0, 0, 0, 0⟩, none) ∧
    unmarshalJSON GoVal.nil (Wire.obj ⟨"x", "99", "not-a-date", "true"⟩) =
      (GoVal.time zeroGoTime, some (CFErr.timeParse "not-a-date")) :=
  ⟨c5_date_parse.1 GoVal.nil ⟨"", "", "2021-06-01T10:00:00Z", ""⟩ ⟨2021, 6, 1, 10, 0, 0, 0, 0⟩
      (by decide) (by decide) rfl rfl,
   c5_date_parse.2.1 GoVal.nil ⟨"x", "99", "not-a-date", "true"⟩
      (CFErr.timeParse "not-a-date") (by decide) (by decide)⟩

/-- C10: decode is not atomic on error — when the date parse or the whole
number chain fails, the holder has already been overwritten (with the zero
timestamp, or with the `int64 0` left by the failed `ParseInt`) when the
error is returned, losing any previous value, including a value set from
the `text` field of the same input. -/
theorem c10_error_overwrites :
    (∀ (cur : GoVal) (c : Cfval) (e : CFErr), c.date ≠ "" →
        goTimeParse c.date = Except.error e →
        unmarshalJSON cur (Wire.obj c) = (GoVal.time zeroGoTime, some e)) ∧
      (∀ (cur : GoVal) (c : Cfval) (e : CFErr), c.date = "" → c.number ≠ "" →
        numberChain c.number = Except.error e →
        unmarshalJSON cur (Wire.obj c) = (GoVal.int64 0, some e)) ∧
      unmarshalJSON GoVal.nil (Wire.obj ⟨"kept", "", "bad-date", ""⟩) =
        (GoVal.time zeroGoTime, some (CFErr.timeParse "bad-date")) := by
  refine ⟨?_, ?_, by decide⟩
  · intro cur c e hd hp
    simp [unmarshalJSON, unmarshalObj, hd, hp]
  · intro cur c e hd hnum hchain
    simp [unmarshalJSON, unmarshalObj, unmarshalTail, hd, hnum, hchain]

theorem c10_witness :
    unmarshalJSON (GoVal.str "prev") (Wire.obj ⟨"", "", "zzz", "true"⟩) =
      (GoVal.time zeroGoTime, some (CFErr.timeParse "zzz")) ∧
    unmarshalJSON (GoVal.str "prev") (Wire.obj ⟨"", "abc", "", ""⟩) =
      (GoVal.int64 0, some (CFErr.numberConversion "abc")) :=
  ⟨c10_error_overwrites.1 (GoVal.str "prev") ⟨"", "", "zzz", "true"⟩
      (CFErr.timeParse "zzz") (by decide) (by decide),
   c10_error_overwrites.2.1 (GoVal.str "prev") ⟨"", "abc", "", ""⟩
      (CFErr.numberConversion "abc") rfl (by decide) (by decide)⟩

/-- C1 counterexample: the float value 2^-24 (representable exactly in
binary) is formatted by `%f` as `"0.000000"`, which decodes to the float 0,
so `decode(encode(v)) = v` fails for floats. -/
theorem c1_counterexample :
    decodeEncode (GoVal.float (1 / 16777216)) ≠ (GoVal.float (1 / 16777216), none) := by
  have hfmt : goFormatFloat ((1 : ℚ) / 16777216) = "0.000000" :=
    goFormatFloat_small _ (by norm_num) (by norm_num)
  have hatoi : goAtoi "0.000000" = none := by decide
  have hne : ("0.000000" : String) ≠ "" := by decide
  have hfmt' : goFormatFloat ((16777216 : ℚ)⁻¹) = "0.000000" := by
    rw [← one_div]
    exact hfmt
  have hred : decodeEncode (GoVal.float (1 / 16777216)) = (GoVal.float 0, none) := by
    simp [decodeEncode, marshalJSON, hfmt, hfmt', unmarshalJSON, unmarshalObj, unmarshalTail,
      numberChain, hatoi, hne, goParseFloat_zeroStr]
  rw [hred]
  intro hcontra
  have h1 : (0 : ℚ) = 1 / 16777216 := by
    have := congrArg Prod.fst hcontra
    simpa using this
  norm_num at h1

/-- C1 (amended): `decode(encode(v)) = v` holds for non-empty strings,
machine integers, booleans, and valid UTC timestamps at second precision
(offset 0, zero nanoseconds, year 1–9999, the range the fixed four-digit
format can render); for floats it holds exactly on the values `%f` can
represent, i.e. those with at most six fractional decimal digits
(`v * 10^6` an integer) — floats needing more precision decode to a
different value. -/
theorem c1_roundtrip :
    (∀ s : String, s ≠ "" → decodeEncode (GoVal.str s) = (GoVal.str s, none)) ∧
      (∀ n : Int, -(2 ^ 63) ≤ n → n < 2 ^ 63 →
        decodeEncode (GoVal.int n) = (GoVal.int n, none)) ∧
      (∀ q : ℚ, (∃ z : Int, q * 1000000 = (z : ℚ)) →
        decodeEncode (GoVal.float q) = (GoVal.float q, none)) ∧
      (∀ b : Bool, decodeEncode (GoVal.bool b) = (GoVal.bool b, none)) ∧
      (∀ t : GoTime, validTime t → t.nano = 0 → t.offset = 0 →
        decodeEncode (GoVal.time t) = (GoVal.time t, none)) := by
  refine ⟨?_, ?_, ?_, ?_, ?_⟩
  · intro s hs
    simp [decodeEncode, marshalJSON, unmarshalJSON, unmarshalObj, unmarshalTail, hs]
  · intro n h1 h2
    have hf := goAtoi_goFormatInt n h1 h2
    have hne := goFormatInt_ne_empty n
    simp [decodeEncode, marshalJSON, unmarshalJSON, unmarshalObj, unmarshalTail,
      numberChain, hf, hne]
  · rintro q ⟨z, hz⟩
    have hatoi := goAtoi_goFormatFloat q
    have hpf := goParseFloat_goFormatFloat q z hz 64
    have hne := goFormatFloat_ne_empty q
    simp [decodeEncode, marshalJSON, unmarshalJSON, unmarshalObj, unmarshalTail,
      numberChain, hatoi, hpf, hne]
  · intro b
    cases b <;> decide
  · intro t hv hn ho
    have hp := goTimeParse_goTimeFormat t hv hn ho
    have hne := goTimeFormat_ne_empty t
    simp [decodeEncode, marshalJSON, unmarshalJSON, unmarshalObj, unmarshalTail, hne, hp]

theorem c1_witness :
    decodeEncode (GoVal.str "a") = (GoVal.str "a", none) ∧
      decodeEncode (GoVal.int 42) = (GoVal.int 42, none) ∧
      decodeEncode (GoVal.float (157 / 50)) = (GoVal.float (157 / 50), none) ∧
      decodeEncode (GoVal.bool true) = (GoVal.bool true, none) ∧
      decodeEncode (GoVal.time ⟨2021, 6, 1, 10, 0, 0, 0, 0⟩) =
        (GoVal.time ⟨2021, 6, 1, 10, 0, 0, 0, 0⟩, none) :=
  ⟨c1_roundtrip.1 "a" (by decide),
   c1_roundtrip.2.1 42 (by decide) (by decide),
   c1_roundtrip.2.2.1 (157 / 50) ⟨3140000, by norm_num⟩,
   c1_roundtrip.2.2.2.1 true,
   c1_roundtrip.2.2.2.2 ⟨2021, 6, 1, 10, 0, 0, 0, 0⟩ (by decide) rfl rfl⟩

/-- C6 counterexample: a timestamp whose location is offset +01:00 from UTC
is encoded using its own wall clock (`10:00:00`) with a literal `Z`, while
its UTC rendering at that instant is `09:00:00Z` — encoding does not render
the timestamp in UTC. -/
theorem c6_counterexample :
    marshalJSON (GoVal.time ⟨2021, 6, 1, 10, 0, 0, 0, 3600⟩) =
      Except.ok (Wire.obj ⟨"", "", "2021-06-01T10:00:00Z", ""⟩) ∧
      specUTCRender ⟨2021, 6, 1, 10, 0, 0, 0, 3600⟩ = "2021-06-01T09:00:00Z" ∧
      marshalJSON (GoVal.time ⟨2021, 6, 1, 10, 0, 0, 0, 3600⟩) ≠
        Except.ok (Wire.obj ⟨"", "", specUTCRender ⟨2021, 6, 1, 10, 0, 0, 0, 3600⟩, ""⟩) :=
  ⟨by decide, by decide, by decide⟩

/-- C6 (amended): encoding a timestamp produces `{date: s}` with `s` the
timestamp's own wall clock rendered at second precision in the exact fixed
format `YYYY-MM-DDTHH:MM:SSZ` (the `Z` is literal); for a UTC timestamp
(offset 0, zero nanoseconds, valid in-range fields) `s` is the UTC
rendering — parsing it back with the fixed format recovers the timestamp
exactly. -/
theorem c6_date_format (t : GoTime) :
    marshalJSON (GoVal.time t) = Except.ok (Wire.obj ⟨"", "", goTimeFormat t, ""⟩) ∧
      (validTime t → t.nano = 0 → t.offset = 0 →
        goTimeParse (goTimeFormat t) = Except.ok t) :=
  ⟨rfl, fun hv hn ho => goTimeParse_goTimeFormat t hv hn ho⟩

theorem c6_witness :
    marshalJSON (GoVal.time ⟨2021, 6, 1, 10, 0, 0, 0, 0⟩) =
      Except.ok (Wire.obj ⟨"", "", "2021-06-01T10:00:00Z", ""⟩) ∧
      goTimeParse "2021-06-01T10:00:00Z" = Except.ok ⟨2021, 6, 1, 10, 0, 0, 0, 0⟩ := by
  have h := c6_date_format ⟨2021, 6, 1, 10, 0, 0, 0, 0⟩
  have hfmt : goTimeFormat ⟨2021, 6, 1, 10, 0, 0, 0, 0⟩ = "2021-06-01T10:00:00Z" := by decide
  exact ⟨by rw [h.1, hfmt], by rw [← hfmt]; exact h.2 (by decide) rfl rfl⟩
